import Mathlib

/-!
Verification of the retrieval-and-merge core of `akasha` (`search.py`).

The embedding below translates the functions of `src/search.py`:
* `_merge_docs`      — round-robin merge of ranked document lists under a
                       language-dependent word budget, with a log entry;
* `_get_relevant_doc_svm` — margin (SVM) retriever: score, argsort, a swap
                       correcting the position of the query row, min-max
                       normalisation, threshold filter;
* `_get_relevant_doc_tfidf` — lexical retriever delegating to an external
                       TF-IDF ranker, truncated to `k`;
* `get_docs`         — strategy dispatch.

External collaborators (jieba segmentation, the sklearn solver, the
TF-IDF ranking itself, the chroma MMR retriever) are parameters of the
embedding: the repository code only consumes their results.  Machine
floats are modelled by `ℚ` (the code uses the scores only through
comparisons and one fixed min-max rescaling).
-/

/-- Metadata of a langchain `Document`: a finite string-keyed mapping,
modelled as an association list with decidable value equality. -/
abbrev Metadata := List (String × String)

/-- langchain `Document`: page content plus metadata.  Equality is value
equality on (content, metadata), matching pydantic equality used by
`docs[i] in res` in `_merge_docs`. -/
structure Document where
  page_content : String
  metadata : Metadata
deriving DecidableEq

/-- Counts maximal runs of non-whitespace characters, scanning left to
right; `inWord` records whether the previous character was part of a word. -/
def countWordsAux : List Char → Bool → Nat
  | [], _ => 0
  | c :: cs, inWord =>
    if c.isWhitespace then countWordsAux cs false
    else (if inWord then 0 else 1) + countWordsAux cs true

/-- Python `len(s.split())`: the number of whitespace-separated words of
`s` (splitting on runs of whitespace, ignoring leading/trailing runs). -/
def pySplitLen (s : String) : Nat :=
  countWordsAux s.data false

/-- Word-length estimate used inside the merge loop of `_merge_docs`:
`len(list(jieba.cut(content)))` for language `'ch'` (the jieba segmenter
is the external parameter `seg`), `len(content.split())` otherwise. -/
def mergeWordsLen (seg : String → Nat) (language : String) (d : Document) : Nat :=
  if language = "ch" then seg d.page_content else pySplitLen d.page_content

/-- The budget constant compared against in the corresponding branch of
`_merge_docs`: 1800 for `'ch'`, 3000 otherwise. -/
def mergeBudget (language : String) : Nat :=
  if language = "ch" then 1800 else 3000

/-- One round of the inner `for docs in docs_list` loop of `_merge_docs`
at round index `i`, threading the accumulated result `res` and word count
`cur`.  `.error (res, cur)` models the early `return res` taken when a
candidate would push `cur` over the budget (the log there records the
`cur` of that moment); `.ok (res, cur)` means the round ran to the end. -/
def mergeInner (seg : String → Nat) (language : String) (i : Nat) :
    List (List Document) → List Document → Nat →
      Except (List Document × Nat) (List Document × Nat)
  | [], res, cur => .ok (res, cur)
  | docs :: rest, res, cur =>
    if h : i < docs.length then
      if docs.get ⟨i, h⟩ ∈ res then
        mergeInner seg language i rest res cur
      else if mergeBudget language < cur + mergeWordsLen seg language (docs.get ⟨i, h⟩) then
        .error (res, cur)
      else
        mergeInner seg language i rest (res ++ [docs.get ⟨i, h⟩])
          (cur + mergeWordsLen seg language (docs.get ⟨i, h⟩))
    else
      mergeInner seg language i rest res cur

/-- The outer `for i in range(topK)` loop of `_merge_docs`: `fuel` is the
number of remaining rounds, `i` the current round index.  An `.error`
from the inner loop is the early return; otherwise the loop continues
with the updated state. -/
def mergeOuter (seg : String → Nat) (language : String) (docs_list : List (List Document)) :
    Nat → Nat → List Document → Nat → List Document × Nat
  | _, 0, res, cur => (res, cur)
  | i, fuel + 1, res, cur =>
    match mergeInner seg language i docs_list res cur with
    | .error p => p
    | .ok (res', cur') => mergeOuter seg language docs_list (i + 1) fuel res' cur'

/-- Source `_merge_docs(docs_list, topK, language, verbose, logs)`: returns the
merged list and the updated log list.  Every return path of the source
appends exactly one `"words length: " + str(cur_count)` entry to `logs`
before returning (`verbose` only toggles a stdout print and is dropped). -/
def _merge_docs (seg : String → Nat) (docs_list : List (List Document)) (topK : Nat)
    (language : String) (logs : List String) : List Document × List String :=
  let p := mergeOuter seg language docs_list 0 topK [] 0
  (p.1, logs ++ ["words length: " ++ toString p.2])

example :
    _merge_docs (fun _ => 0) [[⟨"a b", []⟩, ⟨"c", []⟩]] 2 "en" ["x"]
      = ([⟨"a b", []⟩, ⟨"c", []⟩], ["x", "words length: 3"]) := by decide

example :
    _merge_docs (fun _ => 1000) [[⟨"p", []⟩, ⟨"q", []⟩]] 2 "ch" []
      = ([⟨"p", []⟩], ["words length: 1000"]) := by decide

/-- The state `(res, cur_count)` a `mergeInner` call ends in, whether it
stopped early (`.error`) or ran the round to its end (`.ok`). -/
def mergeStep (e : Except (List Document × Nat) (List Document × Nat)) :
    List Document × Nat :=
  match e with
  | .error p => p
  | .ok p => p

theorem mergeInner_inv (seg : String → Nat) (language : String) (i : Nat) :
    ∀ (ls : List (List Document)) (res : List Document) (cur : Nat),
      cur = (res.map (mergeWordsLen seg language)).sum →
      cur ≤ mergeBudget language →
      (mergeStep (mergeInner seg language i ls res cur)).2
          = ((mergeStep (mergeInner seg language i ls res cur)).1.map
              (mergeWordsLen seg language)).sum
        ∧ (mergeStep (mergeInner seg language i ls res cur)).2 ≤ mergeBudget language
  | [], res, cur, hsum, hle => by
    simpa [mergeInner, mergeStep] using ⟨hsum, hle⟩
  | docs :: rest, res, cur, hsum, hle => by
    rw [mergeInner]
    split
    · split
      · exact mergeInner_inv seg language i rest res cur hsum hle
      · split
        · simpa [mergeStep] using ⟨hsum, hle⟩
        · refine mergeInner_inv seg language i rest _ _ ?_ ?_
          · simp [hsum]
          · omega
    · exact mergeInner_inv seg language i rest res cur hsum hle

theorem mergeOuter_inv (seg : String → Nat) (language : String)
    (docs_list : List (List Document)) :
    ∀ (fuel i : Nat) (res : List Document) (cur : Nat),
      cur = (res.map (mergeWordsLen seg language)).sum →
      cur ≤ mergeBudget language →
      (mergeOuter seg language docs_list i fuel res cur).2
          = ((mergeOuter seg language docs_list i fuel res cur).1.map
              (mergeWordsLen seg language)).sum
        ∧ (mergeOuter seg language docs_list i fuel res cur).2 ≤ mergeBudget language
  | 0, i, res, cur, hsum, hle => by
    simpa [mergeOuter] using ⟨hsum, hle⟩
  | fuel + 1, i, res, cur, hsum, hle => by
    have hinner := mergeInner_inv seg language i docs_list res cur hsum hle
    rw [mergeOuter]
    cases h : mergeInner seg language i docs_list res cur with
    | error p =>
      rw [h] at hinner
      simpa [mergeStep] using hinner
    | ok p =>
      rw [h] at hinner
      simp only [mergeStep] at hinner
      exact mergeOuter_inv seg language docs_list fuel (i + 1) p.1 p.2 hinner.1 hinner.2

/-- C1: for every segmenter, input list of ranked lists, `topK`, language
and log sink, the total estimated word count of the sequence `_merge_docs`
returns (jieba segment count for `'ch'`, whitespace-split count otherwise)
never exceeds the language budget — 1800 for `'ch'`, 3000 otherwise; in
particular the candidate whose length would overflow the budget is never
appended. -/
theorem merge_total_words_le_budget (seg : String → Nat)
    (docs_list : List (List Document)) (topK : Nat) (language : String)
    (logs : List String) :
    ((_merge_docs seg docs_list topK language logs).1.map
        (mergeWordsLen seg language)).sum ≤ mergeBudget language := by
  have h := mergeOuter_inv seg language docs_list topK 0 [] 0 (by simp) (Nat.zero_le _)
  have h1 := h.1
  have h2 := h.2
  rw [h1] at h2
  simpa [_merge_docs] using h2

theorem mergeInner_nodup (seg : String → Nat) (language : String) (i : Nat) :
    ∀ (ls : List (List Document)) (res : List Document) (cur : Nat),
      res.Nodup → (mergeStep (mergeInner seg language i ls res cur)).1.Nodup
  | [], res, cur, hnd => by simpa [mergeInner, mergeStep] using hnd
  | docs :: rest, res, cur, hnd => by
    rw [mergeInner]
    split
    · split
      · exact mergeInner_nodup seg language i rest res cur hnd
      · split
        · simpa [mergeStep] using hnd
        · refine mergeInner_nodup seg language i rest _ _ ?_
          next hmem _ =>
          simp only [List.get_eq_getElem] at hmem
          simp [List.nodup_append, hnd, hmem]
    · exact mergeInner_nodup seg language i rest res cur hnd

theorem mergeOuter_nodup (seg : String → Nat) (language : String)
    (docs_list : List (List Document)) :
    ∀ (fuel i : Nat) (res : List Document) (cur : Nat),
      res.Nodup → (mergeOuter seg language docs_list i fuel res cur).1.Nodup
  | 0, i, res, cur, hnd => by simpa [mergeOuter] using hnd
  | fuel + 1, i, res, cur, hnd => by
    have hinner := mergeInner_nodup seg language i docs_list res cur hnd
    rw [mergeOuter]
    cases h : mergeInner seg language i docs_list res cur with
    | error p =>
      rw [h] at hinner
      simpa [mergeStep] using hinner
    | ok p =>
      rw [h] at hinner
      simp only [mergeStep] at hinner
      exact mergeOuter_nodup seg language docs_list fuel (i + 1) p.1 p.2 hinner

theorem mergeInner_length_single (seg : String → Nat) (language : String)
    (i : Nat) (docs res : List Document) (cur : Nat) :
    (mergeStep (mergeInner seg language i [docs] res cur)).1.length ≤ res.length + 1 := by
  rw [mergeInner]
  split
  · split
    · simp [mergeInner, mergeStep]
    · split
      · simp [mergeStep]
      · simp [mergeInner, mergeStep]
  · simp [mergeInner, mergeStep]

theorem mergeOuter_length_single (seg : String → Nat) (language : String)
    (docs : List Document) :
    ∀ (fuel i : Nat) (res : List Document) (cur : Nat),
      (mergeOuter seg language [docs] i fuel res cur).1.length ≤ res.length + fuel
  | 0, i, res, cur => by simp [mergeOuter]
  | fuel + 1, i, res, cur => by
    have hinner := mergeInner_length_single seg language i docs res cur
    rw [mergeOuter]
    cases h : mergeInner seg language i [docs] res cur with
    | error p =>
      rw [h] at hinner
      simp only [mergeStep] at hinner
      show p.1.length ≤ res.length + (fuel + 1)
      omega
    | ok p =>
      rw [h] at hinner
      simp only [mergeStep] at hinner
      have houter := mergeOuter_length_single seg language docs fuel (i + 1) p.1 p.2
      show (mergeOuter seg language [docs] (i + 1) fuel p.1 p.2).1.length
        ≤ res.length + (fuel + 1)
      omega

/-- C2: a merge call on a single ranked list (every non-combined strategy)
with `topK > 0` returns at most `topK` passages, and no passage value-equal
to another passage of the result occurs twice. -/
theorem merge_single_list_length_nodup (seg : String → Nat) (docs : List Document)
    (topK : Nat) (language : String) (logs : List String) (h : 0 < topK) :
    (_merge_docs seg [docs] topK language logs).1.length ≤ topK ∧
      (_merge_docs seg [docs] topK language logs).1.Nodup := by
  constructor
  · have := mergeOuter_length_single seg language docs topK 0 [] 0
    simpa [_merge_docs] using this
  · have := mergeOuter_nodup seg language [docs] topK 0 [] 0 List.nodup_nil
    simpa [_merge_docs] using this

theorem merge_single_list_length_nodup_witness :
    (_merge_docs (fun _ => 0) [[⟨"a", []⟩, ⟨"b", []⟩]] 1 "en" []).1.length ≤ 1 ∧
      (_merge_docs (fun _ => 0) [[⟨"a", []⟩, ⟨"b", []⟩]] 1 "en" []).1.Nodup :=
  merge_single_list_length_nodup (fun _ => 0) [⟨"a", []⟩, ⟨"b", []⟩] 1 "en" []
    (by decide)

theorem mergeInner_error_append (seg : String → Nat) (language : String) (i : Nat) :
    ∀ (ls : List (List Document)) (res : List Document) (cur : Nat)
      (p : List Document × Nat),
      mergeInner seg language i ls res cur = .error p →
      ∀ ls', mergeInner seg language i (ls ++ ls') res cur = .error p
  | [], res, cur, p, h => by simp [mergeInner] at h
  | docs :: rest, res, cur, p, h => by
    intro ls'
    simp only [List.cons_append]
    rw [mergeInner] at h ⊢
    by_cases hlen : i < docs.length
    · rw [dif_pos hlen] at h ⊢
      by_cases hmem : docs.get ⟨i, hlen⟩ ∈ res
      · rw [if_pos hmem] at h ⊢
        exact mergeInner_error_append seg language i rest res cur p h ls'
      · rw [if_neg hmem] at h ⊢
        by_cases hbud :
            mergeBudget language < cur + mergeWordsLen seg language (docs.get ⟨i, hlen⟩)
        · rw [if_pos hbud] at h ⊢
          exact h
        · rw [if_neg hbud] at h ⊢
          exact mergeInner_error_append seg language i rest _ _ p h ls'
    · rw [dif_neg hlen] at h ⊢
      exact mergeInner_error_append seg language i rest res cur p h ls'

/-- C8: the budget stop of `_merge_docs` is immediate, mid inner-loop: if the
inner loop over the lists `ls` of round `i` stops early with state `p`, then
appending any further lists `ls'` (later lists of the same round) leaves the
outcome `p` unchanged — those lists are never examined, even if their round-`i`
candidate would fit — and the outer loop returns `p` at once, so no later
round runs either. -/
theorem merge_stops_immediately (seg : String → Nat) (language : String) (i : Nat)
    (ls : List (List Document)) (res : List Document) (cur : Nat)
    (p : List Document × Nat)
    (herr : mergeInner seg language i ls res cur = .error p) :
    (∀ ls', mergeInner seg language i (ls ++ ls') res cur = .error p) ∧
      ∀ ls' fuel, mergeOuter seg language (ls ++ ls') i (fuel + 1) res cur = p := by
  refine ⟨mergeInner_error_append seg language i ls res cur p herr, ?_⟩
  intro ls' fuel
  rw [mergeOuter, mergeInner_error_append seg language i ls res cur p herr ls']

theorem merge_stops_immediately_witness :
    (mergeInner (fun _ => 2000) "ch" 0 ([[⟨"x", []⟩]] ++ [[⟨"y", []⟩]]) [] 0
        = .error ([], 0)) ∧
      mergeOuter (fun _ => 2000) "ch" ([[⟨"x", []⟩]] ++ [[⟨"y", []⟩]]) 0 (4 + 1) [] 0
        = ([], 0) :=
  ⟨(merge_stops_immediately (fun _ => 2000) "ch" 0 [[⟨"x", []⟩]] [] 0 ([], 0)
      (by rfl)).1 [[⟨"y", []⟩]],
   (merge_stops_immediately (fun _ => 2000) "ch" 0 [[⟨"x", []⟩]] [] 0 ([], 0)
      (by rfl)).2 [[⟨"y", []⟩]] 4⟩

/-- C10: `_merge_docs` appends exactly one entry to the caller-supplied log
list on every termination path, of the form `"words length: "` followed by
the word count at termination; entries already present are preserved
unchanged and in order, and the returned document list does not depend on
the previous log content (the log is never read). -/
theorem merge_log_frame (seg : String → Nat) (docs_list : List (List Document))
    (topK : Nat) (language : String) (logs : List String) :
    ∃ n : Nat, _merge_docs seg docs_list topK language logs
      = ((_merge_docs seg docs_list topK language []).1,
         logs ++ ["words length: " ++ toString n]) :=
  ⟨(mergeOuter seg language docs_list 0 topK [] 0).2, by simp [_merge_docs]⟩

/-- C7: whitespace-language merge of one ranked list of three pairwise
distinct passages of exactly 1000 words each with `topK = 3`: all three are
admitted (the cumulative count 3000 equals the budget — the boundary is
inclusive) and the appended log entry is `"words length: 3000"`. -/
theorem merge_three_thousand_boundary (seg : String → Nat) (language : String)
    (d1 d2 d3 : Document) (logs : List String)
    (hlang : language ≠ "ch")
    (h1 : pySplitLen d1.page_content = 1000)
    (h2 : pySplitLen d2.page_content = 1000)
    (h3 : pySplitLen d3.page_content = 1000)
    (h12 : d1 ≠ d2) (h13 : d1 ≠ d3) (h23 : d2 ≠ d3) :
    _merge_docs seg [[d1, d2, d3]] 3 language logs
      = ([d1, d2, d3], logs ++ ["words length: 3000"]) := by
  have hw1 : mergeWordsLen seg language d1 = 1000 := by simp [mergeWordsLen, hlang, h1]
  have hw2 : mergeWordsLen seg language d2 = 1000 := by simp [mergeWordsLen, hlang, h2]
  have hw3 : mergeWordsLen seg language d3 = 1000 := by simp [mergeWordsLen, hlang, h3]
  have hb : mergeBudget language = 3000 := by simp [mergeBudget, hlang]
  have h21 : ¬(d2 = d1) := fun e => h12 e.symm
  have h31 : ¬(d3 = d1) := fun e => h13 e.symm
  have h32 : ¬(d3 = d2) := fun e => h23 e.symm
  have hstr : "words length: " ++ toString (3000 : Nat) = "words length: 3000" := rfl
  simp [_merge_docs, mergeOuter, mergeInner, hw1, hw2, hw3, hb, h21, h31, h32, hstr]

/-- A list of `n` words of one non-whitespace character `c` each, separated (and
terminated) by single spaces; a convenient concrete input family. -/
def sepRepChars (c : Char) : Nat → List Char
  | 0 => []
  | n + 1 => c :: ' ' :: sepRepChars c n

theorem countWordsAux_sepRepChars (c : Char) (hc : c.isWhitespace = false) :
    ∀ n, countWordsAux (sepRepChars c n) false = n
  | 0 => rfl
  | n + 1 => by
    have hs : (' ' : Char).isWhitespace = true := rfl
    simp [sepRepChars, countWordsAux, hc, hs, countWordsAux_sepRepChars c hc n,
      Nat.add_comm]

/-- Model of `np.argsort(-similarities)`: the indices `0 .. len-1` sorted by
decreasing similarity score (a stable sort on the index range; the
repository code relies only on the result being a permutation of the
range). -/
def argsortDesc (similarities : List ℚ) : List Nat :=
  List.insertionSort (fun i j => similarities.getD j 0 ≤ similarities.getD i 0)
    (List.range similarities.length)

/-- The determinism correction of `_get_relevant_doc_svm`: locate the
first position of value `0` (the query's row) in the sorted index array
and, if it is not already position 0, swap it with the front entry
(`sorted_ix[0], sorted_ix[zero_index] = sorted_ix[zero_index], sorted_ix[0]`).
Faithful on arrays containing `0`; the source indexes
`np.where(sorted_ix == 0)[0][0]` and would raise otherwise. -/
def correctQueryFirst (sorted_ix : List Nat) : List Nat :=
  let zero_index := sorted_ix.indexOf 0
  if zero_index = 0 then sorted_ix
  else (sorted_ix.set 0 (sorted_ix.getD zero_index 0)).set zero_index
    (sorted_ix.getD 0 0)

/-- Min-max rescaling of the scores:
`(similarities - min) / (max - min + 1e-6)`. -/
def normalizedSims (similarities : List ℚ) : List ℚ :=
  let mn := similarities.min?.getD 0
  let mx := similarities.max?.getD 0
  let denominator := mx - mn + 1 / 1000000
  similarities.map (fun s => (s - mn) / denominator)

/-- The threshold test of the selection loop:
`relevancy_threshold is None or normalized_similarities[row] >= relevancy_threshold`. -/
def passesThreshold (relevancy_threshold : Option ℚ) (normalized : List ℚ)
    (row : Nat) : Bool :=
  match relevancy_threshold with
  | none => true
  | some t => normalized.getD row 0 ≥ t

/-- The rows the selection loop iterates over: `sorted_ix[1 : k + 1]`
after the determinism correction. -/
def svmRows (similarities : List ℚ) (k : Nat) : List Nat :=
  ((correctQueryFirst (argsortDesc similarities)).drop 1).take k

/-- The `top_k_results` loop of `_get_relevant_doc_svm`: for each
surviving row build `Document(indx['documents'][row-1], indx['metadatas'][row-1])`. -/
def svmSelect (similarities : List ℚ) (documents : List String)
    (metadatas : List Metadata) (k : Nat) (relevancy_threshold : Option ℚ) :
    List Document :=
  (svmRows similarities k).filterMap (fun row =>
    if passesThreshold relevancy_threshold (normalizedSims similarities) row then
      some ⟨documents.getD (row - 1) "", metadatas.getD (row - 1) []⟩
    else none)

/-- Source `x = np.concatenate([query_embeds[None, ...], indx['embeddings']])`. -/
def svmX (query_embeds : List ℚ) (embeddings : List (List ℚ)) : List (List ℚ) :=
  query_embeds :: embeddings

/-- Source `y = np.zeros(x.shape[0]); y[0] = 1`. -/
def svmY (embeddings : List (List ℚ)) : List ℚ :=
  1 :: embeddings.map (fun _ => 0)

/-- Model of `clf.fit(x, y)` followed by `clf.decision_function(x)`, for sklearn's
`svm.LinearSVC`.  The solver itself is the abstract parameter `solver`
(the spec calls it inherently non-deterministic); `fit` validates its
inputs and raises `ValueError` when the labels `y` contain fewer than two
distinct classes, which is the reachable failure of this call. -/
def LinearSVC_fit_decision (solver : List (List ℚ) → List ℚ → List ℚ)
    (x : List (List ℚ)) (y : List ℚ) : Except String (List ℚ) :=
  if y.dedup.length < 2 then
    .error "ValueError: This solver needs samples of at least 2 classes in the data"
  else
    .ok (solver x y)

/-- Source `_get_relevant_doc_svm(db, embeddings, query, k, relevancy_threshold)`:
the corpus rows read from the store are `embeddings`/`documents`/`metadatas`,
and `query_embeds` is the embedded query.  Exceptions of the classifier
fit propagate (`Except.error`), exactly as in the source, which has no
guard or handler around `clf.fit`. -/
def _get_relevant_doc_svm (solver : List (List ℚ) → List ℚ → List ℚ)
    (query_embeds : List ℚ) (embeddings : List (List ℚ))
    (documents : List String) (metadatas : List Metadata)
    (k : Nat) (relevancy_threshold : Option ℚ) : Except String (List Document) :=
  match LinearSVC_fit_decision solver (svmX query_embeds embeddings)
      (svmY embeddings) with
  | .error e => .error e
  | .ok similarities =>
    .ok (svmSelect similarities documents metadatas k relevancy_threshold)

example : correctQueryFirst [2, 0, 1] = [0, 2, 1] := by decide

theorem set_swap_perm : ∀ (t : List Nat) (j : Nat) (hj : j < t.length) (a : Nat),
    List.Perm (t.get ⟨j, hj⟩ :: t.set j a) (a :: t)
  | x :: t', 0, _, a => List.Perm.swap a x t'
  | x :: t', j + 1, hj, a => by
    have hj' : j < t'.length := by simpa using hj
    have step := set_swap_perm t' j hj' a
    have h1 : (x :: t').get ⟨j + 1, hj⟩ :: (x :: t').set (j + 1) a
        = t'.get ⟨j, hj'⟩ :: x :: t'.set j a := by simp
    rw [h1]
    exact (List.Perm.swap x _ _).trans ((step.cons x).trans (List.Perm.swap a x t'))

theorem correctQueryFirst_perm_head : ∀ (l : List Nat), 0 ∈ l →
    List.Perm (correctQueryFirst l) l ∧ ∃ t, correctQueryFirst l = 0 :: t
  | [], h => by simp at h
  | a :: t, h => by
    by_cases ha : a = 0
    · subst ha
      have hz : (0 :: t).indexOf 0 = 0 := List.indexOf_cons_self 0 t
      refine ⟨?_, t, ?_⟩ <;> simp [correctQueryFirst, hz]
    · have h0t : 0 ∈ t := by
        rcases List.mem_cons.1 h with h0 | h0
        · exact absurd h0.symm ha
        · exact h0
      have hz : (a :: t).indexOf 0 = (t.indexOf 0) + 1 :=
        List.indexOf_cons_ne t ha
      have hj : t.indexOf 0 < t.length := List.indexOf_lt_length.2 h0t
      have htj : t.get ⟨t.indexOf 0, hj⟩ = 0 := List.indexOf_get hj
      have hres : correctQueryFirst (a :: t) = 0 :: t.set (t.indexOf 0) a := by
        simp only [correctQueryFirst, hz]
        rw [if_neg (Nat.succ_ne_zero _)]
        have hgd : (a :: t).getD (t.indexOf 0 + 1) 0 = 0 := by
          rw [List.getD_cons_succ, List.getD_eq_getElem t 0 hj]
          simpa using htj
        rw [hgd]
        simp
      refine ⟨?_, t.set (t.indexOf 0) a, hres⟩
      rw [hres]
      have hperm := set_swap_perm t (t.indexOf 0) hj a
      rw [htj] at hperm
      exact hperm

/-- C9: the locate-and-swap determinism correction of the margin retriever
is idempotent — on every similarity-sorted index array that contains the
query's row value 0, applying it twice gives the same array as applying it
once. -/
theorem correctQueryFirst_idempotent (l : List Nat) (h : 0 ∈ l) :
    correctQueryFirst (correctQueryFirst l) = correctQueryFirst l := by
  obtain ⟨-, t, ht⟩ := correctQueryFirst_perm_head l h
  rw [ht]
  simp [correctQueryFirst, List.indexOf_cons_self]

theorem correctQueryFirst_idempotent_witness :
    correctQueryFirst (correctQueryFirst [2, 0, 1]) = correctQueryFirst [2, 0, 1] :=
  correctQueryFirst_idempotent [2, 0, 1] (by decide)

/-- C3 (exhibit of the code bug): invoked on an empty corpus the margin
retriever does not return an empty list — the label vector degenerates to
the single class `[1]`, the classifier fit raises `ValueError`, and
`_get_relevant_doc_svm` propagates it (the source has no emptiness guard
and no exception handler). -/
theorem svm_empty_corpus_propagates_error :
    _get_relevant_doc_svm (fun _ _ => []) [1] [] [] [] 1 (some (1 / 5))
      = .error
          "ValueError: This solver needs samples of at least 2 classes in the data" := by
  rfl

example :
    _get_relevant_doc_svm (fun x _ => x.map (fun _ => 0)) [1] [[2], [3]]
        ["da", "db"] [[], []] 2 none
      = .ok [⟨"da", []⟩, ⟨"db", []⟩] := by rfl

theorem merge_three_thousand_boundary_witness :
    _merge_docs (fun _ => 0)
        [[⟨⟨sepRepChars 'a' 1000⟩, []⟩, ⟨⟨sepRepChars 'b' 1000⟩, []⟩,
          ⟨⟨sepRepChars 'c' 1000⟩, []⟩]] 3 "en" []
      = ([⟨⟨sepRepChars 'a' 1000⟩, []⟩, ⟨⟨sepRepChars 'b' 1000⟩, []⟩,
          ⟨⟨sepRepChars 'c' 1000⟩, []⟩], ["words length: 3000"]) :=
  merge_three_thousand_boundary (fun _ => 0) "en" _ _ _ []
    (by decide)
    (countWordsAux_sepRepChars 'a' rfl 1000)
    (countWordsAux_sepRepChars 'b' rfl 1000)
    (countWordsAux_sepRepChars 'c' rfl 1000)
    (by decide) (by decide) (by decide)

theorem length_filterMap_ite {α β : Type} (p : α → Bool) (f : α → β) :
    ∀ l : List α,
      (l.filterMap (fun x => if p x then some (f x) else none)).length = l.countP p
  | [] => rfl
  | x :: l => by
    by_cases h : p x <;>
      simp [List.filterMap_cons, h, List.countP_cons, length_filterMap_ite p f l]

theorem svmSelect_length (sims : List ℚ) (documents : List String)
    (metadatas : List Metadata) (k : Nat) (thr : Option ℚ) :
    (svmSelect sims documents metadatas k thr).length
      = (svmRows sims k).countP (passesThreshold thr (normalizedSims sims)) := by
  unfold svmSelect
  exact length_filterMap_ite _ _ _

theorem two_le_length_of_two_mem {α : Type} (l : List α) (a b : α)
    (ha : a ∈ l) (hb : b ∈ l) (hab : a ≠ b) : 2 ≤ l.length := by
  match l with
  | [] => simp at ha
  | [x] =>
    simp at ha hb
    exact absurd (ha.trans hb.symm) hab
  | x :: y :: t =>
    simp only [List.length_cons]
    omega

theorem svmRows_bounds (sims : List ℚ) (N k : Nat) (hlen : sims.length = N + 1) :
    (svmRows sims k).Nodup ∧ svmRows sims k ⊆ (List.range (N + 1)).drop 1 ∧
      0 ∉ svmRows sims k := by
  have hperm0 : List.Perm (argsortDesc sims) (List.range sims.length) :=
    List.perm_insertionSort _ _
  have h0 : 0 ∈ argsortDesc sims := by
    rw [hperm0.mem_iff, hlen]
    exact List.mem_range.2 (Nat.succ_pos N)
  obtain ⟨hcp, t, ht⟩ := correctQueryFirst_perm_head (argsortDesc sims) h0
  have hcperm : List.Perm (correctQueryFirst (argsortDesc sims))
      (List.range (N + 1)) := by
    have h' := hcp.trans hperm0
    rw [hlen] at h'
    exact h'
  have hnodup : (correctQueryFirst (argsortDesc sims)).Nodup :=
    hcperm.nodup_iff.2 (List.nodup_range N.succ)
  rw [ht, List.nodup_cons] at hnodup
  have hrows : svmRows sims k = t.take k := by simp [svmRows, ht]
  have hsubt : ∀ x, x ∈ svmRows sims k → x ∈ t := by
    intro x hx
    rw [hrows] at hx
    exact List.take_subset k t hx
  refine ⟨?_, ?_, ?_⟩
  · rw [hrows]
    exact (List.take_sublist k t).nodup hnodup.2
  · intro x hx
    have hxt := hsubt x hx
    have hxc : x ∈ correctQueryFirst (argsortDesc sims) := by
      rw [ht]
      exact List.mem_cons_of_mem _ hxt
    have hxr : x < N + 1 := List.mem_range.1 (hcperm.mem_iff.1 hxc)
    have hx0 : x ≠ 0 := fun e => hnodup.1 (e ▸ hxt)
    rw [List.range_succ_eq_map, List.drop_one, List.tail_cons]
    exact List.mem_map.2 ⟨x - 1, List.mem_range.2 (by omega), by omega⟩
  · intro hx
    exact hnodup.1 (hsubt 0 hx)

/-- C6: for a corpus of `N ≥ 1` passages and `k ≤ N`, the margin retriever
succeeds and its output has length at most `k`, at most the number of
corpus rows whose min-max-normalised score passes the threshold, and the
row of the query embedding itself (row 0 of the scored set) is never among
the rows it selects from.  The abstract solver is assumed only to return
one score per scored point, the contract of `decision_function`. -/
theorem svm_output_bounds (solver : List (List ℚ) → List ℚ → List ℚ)
    (query_embeds : List ℚ) (embeddings : List (List ℚ))
    (documents : List String) (metadatas : List Metadata)
    (k N : Nat) (relevancy_threshold : Option ℚ)
    (hN : embeddings.length = N) (hN1 : 1 ≤ N) (hk : k ≤ N)
    (hsolver : ∀ x y, (solver x y).length = x.length) :
    ∃ out, _get_relevant_doc_svm solver query_embeds embeddings documents
        metadatas k relevancy_threshold = .ok out
      ∧ out.length ≤ k
      ∧ out.length ≤ ((List.range (N + 1)).drop 1).countP
          (passesThreshold relevancy_threshold
            (normalizedSims (solver (svmX query_embeds embeddings) (svmY embeddings))))
      ∧ 0 ∉ svmRows (solver (svmX query_embeds embeddings) (svmY embeddings)) k := by
  have hslen : (solver (svmX query_embeds embeddings) (svmY embeddings)).length
      = N + 1 := by
    rw [hsolver]
    simp [svmX, hN]
  have h1mem : (1 : ℚ) ∈ svmY embeddings := List.mem_cons_self _ _
  have h0mem : (0 : ℚ) ∈ svmY embeddings := by
    cases embeddings with
    | nil =>
      simp at hN
      omega
    | cons e rest => simp [svmY]
  have hfit : ¬((svmY embeddings).dedup.length < 2) := by
    have h2 := two_le_length_of_two_mem (svmY embeddings).dedup 1 0
      (List.mem_dedup.2 h1mem) (List.mem_dedup.2 h0mem) (by norm_num)
    omega
  obtain ⟨hnd, hsub, h0r⟩ :=
    svmRows_bounds (solver (svmX query_embeds embeddings) (svmY embeddings)) N k hslen
  refine ⟨svmSelect (solver (svmX query_embeds embeddings) (svmY embeddings))
    documents metadatas k relevancy_threshold, ?_, ?_, ?_, h0r⟩
  · simp only [_get_relevant_doc_svm, LinearSVC_fit_decision, if_neg hfit]
  · rw [svmSelect_length]
    have hc := List.countP_le_length
      (p := passesThreshold relevancy_threshold
        (normalizedSims (solver (svmX query_embeds embeddings) (svmY embeddings))))
      (l := svmRows (solver (svmX query_embeds embeddings) (svmY embeddings)) k)
    have ht : (svmRows (solver (svmX query_embeds embeddings) (svmY embeddings)) k).length
        ≤ k := by
      simp only [svmRows]
      exact (List.length_take_le _ _)
    omega
  · rw [svmSelect_length]
    exact (List.subperm_of_subset hnd hsub).countP_le _

theorem svm_output_bounds_witness :
    ∃ out, _get_relevant_doc_svm (fun x _ => x.map (fun _ => (0 : ℚ))) [1] [[2]]
        ["d"] [[]] 1 none = .ok out
      ∧ out.length ≤ 1
      ∧ out.length ≤ ((List.range (1 + 1)).drop 1).countP
          (passesThreshold none
            (normalizedSims
              ((fun x _ => x.map (fun _ => (0 : ℚ))) (svmX [1] [[2]]) (svmY [[2]]))))
      ∧ 0 ∉ svmRows
          ((fun x _ => x.map (fun _ => (0 : ℚ))) (svmX [1] [[2]]) (svmY [[2]])) 1 :=
  svm_output_bounds (fun x _ => x.map (fun _ => (0 : ℚ))) [1] [[2]] ["d"] [[]] 1 1
    none rfl (by decide) (by decide) (fun x _ => by simp)

/-- The external langchain `TFIDFRetriever`, modelled at its interface
boundary (the spec treats the sparse indexing service as opaque): it holds
the corpus documents and the `k` it was configured with; its ranking rule
is the abstract parameter `tfidfRank`, a reordering of the corpus by
decreasing TF-IDF similarity to the query. -/
structure TFIDFRetriever where
  docs : List Document
  k : Nat

/-- Model of `TFIDFRetriever.from_documents(docs_list, search_kwargs={"k": k})`. -/
def TFIDFRetriever_from_documents (docs_list : List Document) (k : Nat) :
    TFIDFRetriever :=
  ⟨docs_list, k⟩

/-- Model of `retriever.get_relevant_documents(query)`: the corpus ranked by the
retriever's similarity rule, truncated to the configured `k`. -/
def TFIDFRetriever_get_relevant_documents
    (tfidfRank : List Document → String → List Document)
    (r : TFIDFRetriever) (query : String) : List Document :=
  (tfidfRank r.docs query).take r.k

/-- Source `_get_relevant_doc_tfidf(db, query, k)`: rebuild `Document`s from the
store's aligned `documents`/`metadatas` columns, build a `TFIDFRetriever`
over them configured with `k`, retrieve, and truncate with `result[:k]`. -/
def _get_relevant_doc_tfidf (tfidfRank : List Document → String → List Document)
    (documents : List String) (metadatas : List Metadata)
    (query : String) (k : Nat) : List Document :=
  let docs_list := (List.zip documents metadatas).map (fun dm => Document.mk dm.1 dm.2)
  let retriever := TFIDFRetriever_from_documents docs_list k
  (TFIDFRetriever_get_relevant_documents tfidfRank retriever query).take k

/-- C4: for every corpus (aligned document/metadata columns), query and
`k`, the lexical retriever returns exactly `min k corpusSize` passages, no
matter the similarity scores — the ranking is assumed only to be a
reordering of the corpus, which is the TF-IDF ranking contract. -/
theorem tfidf_returns_min_k_corpus
    (tfidfRank : List Document → String → List Document)
    (documents : List String) (metadatas : List Metadata)
    (query : String) (k : Nat)
    (hrank : ∀ ds q, List.Perm (tfidfRank ds q) ds)
    (hlen : documents.length = metadatas.length) :
    (_get_relevant_doc_tfidf tfidfRank documents metadatas query k).length
      = min k documents.length := by
  unfold _get_relevant_doc_tfidf TFIDFRetriever_get_relevant_documents
    TFIDFRetriever_from_documents
  have h1 := (hrank ((List.zip documents metadatas).map
    (fun dm => Document.mk dm.1 dm.2)) query).length_eq
  simp only [List.length_map, List.length_zip] at h1
  simp only [List.length_take, h1]
  omega

theorem tfidf_returns_min_k_corpus_witness :
    (_get_relevant_doc_tfidf (fun ds _ => ds) ["x", "y"] [[], []] "q" 1).length
      = min 1 2 :=
  tfidf_returns_min_k_corpus (fun ds _ => ds) ["x", "y"] [[], []] "q" 1
    (fun ds _ => List.Perm.refl ds) rfl

/-- Source `get_docs(db, embeddings, query, topK, threshold, language, search_type,
verbose, logs)`: strategy dispatch.  The chroma MMR retriever is the
abstract parameter `mmrF`; the margin and lexical retrievers are the
embeddings above over the store's columns; an exception of the classifier
fit propagates unhandled.  An unrecognised `search_type` appends
`f"cannot find search type {search_type}, end process\n"` to `logs` and
returns `None`. -/
def get_docs (mmrF : String → Nat → Option ℚ → List Document)
    (solver : List (List ℚ) → List ℚ → List ℚ)
    (query_embeds : List ℚ) (embeddings : List (List ℚ))
    (documentsCol : List String) (metadatasCol : List Metadata)
    (tfidfRank : List Document → String → List Document)
    (seg : String → Nat)
    (query : String) (topK : Nat) (threshold : Option ℚ) (language : String)
    (search_type : String) (logs : List String) :
    Except String (Option (List Document) × List String) :=
  if search_type = "merge" then
    let docs_mmr := mmrF query topK threshold
    match _get_relevant_doc_svm solver query_embeds embeddings documentsCol
        metadatasCol topK threshold with
    | .error e => .error e
    | .ok docs_svm =>
      let docs_tfidf :=
        _get_relevant_doc_tfidf tfidfRank documentsCol metadatasCol query topK
      let p := _merge_docs seg [docs_mmr, docs_svm, docs_tfidf] topK language logs
      .ok (some p.1, p.2)
  else if search_type = "mmr" then
    let p := _merge_docs seg [mmrF query topK threshold] topK language logs
    .ok (some p.1, p.2)
  else if search_type = "svm" then
    match _get_relevant_doc_svm solver query_embeds embeddings documentsCol
        metadatasCol topK threshold with
    | .error e => .error e
    | .ok docs_svm =>
      let p := _merge_docs seg [docs_svm] topK language logs
      .ok (some p.1, p.2)
  else if search_type = "tfidf" then
    let p := _merge_docs seg
      [_get_relevant_doc_tfidf tfidfRank documentsCol metadatasCol query topK]
      topK language logs
    .ok (some p.1, p.2)
  else
    .ok (none, logs ++ ["cannot find search type " ++ search_type ++ ", end process\n"])

/-- C5: for every `search_type` outside `merge`/`mmr`/`svm`/`tfidf`,
`get_docs` appends the diagnostic message naming the unrecognised search
type to the log sink, returns an absent result (`None`), and raises no
exception. -/
theorem get_docs_unknown_search_type (mmrF : String → Nat → Option ℚ → List Document)
    (solver : List (List ℚ) → List ℚ → List ℚ)
    (query_embeds : List ℚ) (embeddings : List (List ℚ))
    (documentsCol : List String) (metadatasCol : List Metadata)
    (tfidfRank : List Document → String → List Document)
    (seg : String → Nat)
    (query : String) (topK : Nat) (threshold : Option ℚ) (language : String)
    (search_type : String) (logs : List String)
    (h1 : search_type ≠ "merge") (h2 : search_type ≠ "mmr")
    (h3 : search_type ≠ "svm") (h4 : search_type ≠ "tfidf") :
    get_docs mmrF solver query_embeds embeddings documentsCol metadatasCol
        tfidfRank seg query topK threshold language search_type logs
      = .ok (none,
          logs ++ ["cannot find search type " ++ search_type ++ ", end process\n"]) := by
  simp [get_docs, h1, h2, h3, h4]

theorem get_docs_unknown_search_type_witness :
    get_docs (fun _ _ _ => []) (fun _ _ => []) [] [] [] [] (fun ds _ => ds)
        (fun _ => 0) "q" 1 none "ch" "unknown" []
      = .ok (none, ["cannot find search type unknown, end process\n"]) :=
  get_docs_unknown_search_type (fun _ _ _ => []) (fun _ _ => []) [] [] [] []
    (fun ds _ => ds) (fun _ => 0) "q" 1 none "ch" "unknown" []
    (by decide) (by decide) (by decide) (by decide)
